import Mathlib

/-!
Verification development for the eThekwini WS-7761 smart-meter dashboard
(src/app.py).  The Python source is shallowly embedded: pandas Series
pipelines become list transformations, datetime values become integer time
points or calendar records (missing values become none), DataFrames become
a Table of header names and cell rows, and exceptions become Except values.
All definitions come first, followed by the theorems.
-/

namespace Ethekwini

/-! ### String primitives (ASCII fragment of the Python str methods) -/

/-- Lower-casing of a single character, the ASCII fragment of the Python
str.lower used by the status values in app.py. -/
def lowerChar (c : Char) : Char :=
  if 65 ≤ c.toNat ∧ c.toNat ≤ 90 then Char.ofNat (c.toNat + 32) else c

/-- Embedding of the Python str.lower on status strings (ASCII fragment). -/
def strLower (s : String) : String := String.mk (s.data.map lowerChar)

/-- Whitespace test used by the trim model. -/
def isWS (c : Char) : Bool := c == ' ' || c == '\t' || c == '\n' || c == '\r'

/-- Embedding of the Python str.strip: removes leading and trailing
whitespace. -/
def strTrim (s : String) : String :=
  String.mk (((s.data.dropWhile isWS).reverse.dropWhile isWS).reverse)

/-- Decides whether the second character list occurs at the start of the
first one. -/
def startsWithChars : List Char → List Char → Bool
  | _, [] => true
  | [], _ :: _ => false
  | a :: as, b :: bs => a == b && startsWithChars as bs

/-- Decides whether the second character list occurs inside the first one,
the substring test of the Python expression needle in haystack. -/
def containsChars : List Char → List Char → Bool
  | [], needle => needle.isEmpty
  | h :: t, needle => startsWithChars (h :: t) needle || containsChars t needle

/-! ### Task rows and the KPI aggregation pipeline -/

/-- A row of the Tasks sheet as consumed by the KPI and Export tabs of
app.py after cleaning: the Progress status text and the parsed Start and
Due dates.  Dates are abstracted to integer time points; a missing or
unparseable date (NaT) is none. -/
structure TaskRow where
  name : String
  progress : String
  startDate : Option Int
  dueDate : Option Int
deriving Repr, DecidableEq

/-- Embedding of the pandas column access df_main["Progress"]: the list of
status strings, one per row. -/
def progressSeries (t : List TaskRow) : List String :=
  t.map (fun r => r.progress)

/-- Embedding of series.str.lower().eq(lit): elementwise lower-case then
compare for equality with a literal (no trimming is performed). -/
def lowerEqSeries (s : List String) (lit : String) : List Bool :=
  s.map (fun x => decide (strLower x = lit))

/-- Embedding of a boolean series .sum(): the number of true entries. -/
def boolSum : List Bool → Nat
  | [] => 0
  | b :: l => (if b then 1 else 0) + boolSum l

/-- Embedding of app.py line 546: progress.str.lower().eq("completed").sum(). -/
def completedCount (t : List TaskRow) : Nat :=
  boolSum (lowerEqSeries (progressSeries t) "completed")

/-- Embedding of app.py line 547: progress.str.lower().eq("in progress").sum(). -/
def inProgressCount (t : List TaskRow) : Nat :=
  boolSum (lowerEqSeries (progressSeries t) "in progress")

/-- Embedding of app.py line 548: progress.str.lower().eq("not started").sum(). -/
def notStartedCount (t : List TaskRow) : Nat :=
  boolSum (lowerEqSeries (progressSeries t) "not started")

/-- Embedding of the pandas column access df_main["Due date"] after
cleaning: parsed due dates, with NaT as none. -/
def dueDateSeries (t : List TaskRow) : List (Option Int) :=
  t.map (fun r => r.dueDate)

/-- Embedding of pd.to_datetime(col, errors="coerce") < pd.Timestamp.today():
a NaT entry compares as false, a parsed date compares strictly. -/
def ltTodaySeries (ds : List (Option Int)) (today : Int) : List Bool :=
  ds.map (fun d => match d with
    | some x => decide (x < today)
    | none => false)

/-- Embedding of the elementwise series conjunction a AND (NOT b). -/
def andNotSeries (a b : List Bool) : List Bool :=
  a.zipWith (fun x y => x && !y) b

/-- Embedding of app.py lines 549 to 552: overdue =
((to_datetime(due) < today) AND NOT lower(progress).eq("completed")).sum(). -/
def overdueCount (t : List TaskRow) (today : Int) : Nat :=
  boolSum (andNotSeries (ltTodaySeries (dueDateSeries t) today)
    (lowerEqSeries (progressSeries t) "completed"))

/-- Per-row overdue predicate equivalent to one entry of the overdue series. -/
def isOverdue (r : TaskRow) (today : Int) : Bool :=
  (match r.dueDate with
   | some d => decide (d < today)
   | none => false) && !(decide (strLower r.progress = "completed"))

/-- Embedding of create_colored_gauge, app.py lines 554 to 555:
pct = (value / total * 100) if total > 0 else 0. -/
def gaugePct (value total : ℚ) : ℚ :=
  if total > 0 then value / total * 100 else 0

/-- Embedding of make_contractor_gauge, app.py lines 411 to 412:
pct = (completed / total * 100) if total and total > 0 else 0, where the
first conjunct models the Python truthiness test on the integer total. -/
def contractorPct (completed total : ℚ) : ℚ :=
  if total ≠ 0 ∧ total > 0 then completed / total * 100 else 0

/-! ### Task duration (app.py lines 277 to 286 and 587 to 593) -/

/-- Embedding of Duration = (Due date - Start date).dt.days per row: defined
only when both dates are present. -/
def durationDays (r : TaskRow) : Option Int :=
  match r.startDate, r.dueDate with
  | some s, some d => some (d - s)
  | _, _ => none

/-- Embedding of df_duration["Duration"].mean(): pandas mean skips missing
entries and yields NaN (modelled as none) when no entry remains. -/
def avgDuration (t : List TaskRow) : Option ℚ :=
  let ds := t.filterMap durationDays
  if ds.isEmpty then none
  else some ((ds.map (fun z => (z : ℚ))).sum / (ds.length : ℚ))

/-- Embedding of the rendering at app.py lines 593 and 731: a missing
average renders as "N/A", otherwise the numeric value is formatted. -/
def renderAvgDuration (a : Option ℚ) : String :=
  match a with
  | none => "N/A"
  | some q => toString q

/-! ### Calendar dates and day-first parsing (app.py lines 269 to 271) -/

/-- Calendar date produced by the date parser. -/
structure Date where
  year : Nat
  month : Nat
  day : Nat
deriving Repr, DecidableEq

/-- Gregorian leap-year test. -/
def isLeap (y : Nat) : Bool :=
  y % 4 == 0 && (y % 100 != 0 || y % 400 == 0)

/-- Number of days of a month in a given year. -/
def daysInMonth (y m : Nat) : Nat :=
  if m = 2 then (if isLeap y then 29 else 28)
  else if m = 4 ∨ m = 6 ∨ m = 9 ∨ m = 11 then 30
  else 31

/-- Validity of a calendar date. -/
def validDate (y m d : Nat) : Bool :=
  decide (1 ≤ m) && decide (m ≤ 12) && decide (1 ≤ d) && decide (d ≤ daysInMonth y m)

/-- Numeric value of an ASCII digit character. -/
def digitVal (c : Char) : Nat := c.toNat - 48

/-- ASCII digit test. -/
def isDigitChar (c : Char) : Bool :=
  decide (48 ≤ c.toNat) && decide (c.toNat ≤ 57)

/-- Parses a nonempty all-digit character list as a decimal number. -/
def parseNatList (l : List Char) : Option Nat :=
  if !l.isEmpty && l.all isDigitChar then
    some (l.foldl (fun a c => a * 10 + digitVal c) 0)
  else none

/-- ASCII digit character for a value below ten. -/
def digitChar (n : Nat) : Char := Char.ofNat (48 + n)

/-- Decimal digits of a number, least significant first. -/
def digitsRev (n : Nat) : List Char :=
  if h : n = 0 then []
  else digitChar (n % 10) :: digitsRev (n / 10)
termination_by n
decreasing_by exact Nat.div_lt_self (Nat.pos_of_ne_zero h) (by norm_num)

/-- Decimal notation of a number, most significant first. -/
def natToChars (n : Nat) : List Char :=
  if n = 0 then ['0'] else (digitsRev n).reverse

/-- Decimal notation padded with leading zeros to a given width. -/
def padTo (w n : Nat) : List Char :=
  List.replicate (w - (natToChars n).length) '0' ++ natToChars n

/-- Formats a date as DD/MM/YYYY. -/
def fmtDMY (d m y : Nat) : String :=
  String.mk (padTo 2 d ++ '/' :: (padTo 2 m ++ '/' :: padTo 4 y))

/-- Formats a date as YYYY-MM-DD. -/
def fmtISO (y m d : Nat) : String :=
  String.mk (padTo 4 y ++ '-' :: (padTo 2 m ++ '-' :: padTo 2 d))

/-- Splits a character list at every occurrence of a separator. -/
def splitOnChar (sep : Char) : List Char → List (List Char)
  | [] => [[]]
  | c :: cs =>
    if c = sep then [] :: splitOnChar sep cs
    else
      match splitOnChar sep cs with
      | [] => [[c]]
      | h :: t => (c :: h) :: t

/-- Day-first parsing of a slash-separated date DD/MM/YYYY. -/
def parseDayFirstChars (l : List Char) : Option Date :=
  match splitOnChar '/' l with
  | [ds, ms, ys] =>
    match parseNatList ds, parseNatList ms, parseNatList ys with
    | some d, some m, some y => if validDate y m d then some ⟨y, m, d⟩ else none
    | _, _, _ => none
  | _ => none

/-- Parsing of a dash-separated date YYYY-MM-DD. -/
def parseISOChars (l : List Char) : Option Date :=
  match splitOnChar '-' l with
  | [ys, ms, ds] =>
    match parseNatList ys, parseNatList ms, parseNatList ds with
    | some y, some m, some d => if validDate y m d then some ⟨y, m, d⟩ else none
    | _, _, _ => none
  | _ => none

/-- Embedding of pd.to_datetime(value, dayfirst=True, errors="coerce") on a
string cell, restricted to the two textual formats the claims exercise:
slash-separated day-first dates and ISO dashed dates.  Any other value
coerces to none (NaT) instead of raising. -/
def parseDateCell (s : String) : Option Date :=
  match parseDayFirstChars s.data with
  | some d => some d
  | none => parseISOChars s.data

/-! ### Generic tables, the workbook loader and the cleaning pipeline -/

/-- A spreadsheet cell: a text value, a parsed date, or a missing value
(NaN and NaT collapse to null). -/
inductive Cell where
  | str (s : String)
  | date (d : Date)
  | null
deriving Repr, DecidableEq

/-- A sheet parsed into a table: header names and rows of cells. -/
structure Table where
  header : List String
  rows : List (List Cell)
deriving Repr, DecidableEq

/-- The empty DataFrame substituted on a per-sheet parse failure. -/
def emptyTable : Table := ⟨[], []⟩

/-- State of the workbook file on disk: missing, present but not openable
as a spreadsheet (corrupt or wrong format), or openable with a list of
named sheets, each of which parses to a table or fails (none). -/
inductive FileState where
  | absent
  | unopenable
  | workbook (sheets : List (String × Option Table))
deriving Repr, DecidableEq

/-- Embedding of load_data, app.py lines 161 to 172.  A missing path
returns the empty mapping; pd.ExcelFile stands outside the try block, so
an unopenable file propagates its exception (modelled as Except.error);
each per-sheet parse failure is caught and replaced by an empty table. -/
def load_data : FileState → Except String (List (String × Table))
  | FileState.absent => Except.ok []
  | FileState.unopenable => Except.error "ExcelFile raised"
  | FileState.workbook ss => Except.ok (ss.map (fun p => (p.1, p.2.getD emptyTable)))

/-- Detection of date columns, app.py line 270: the lower-cased header
contains the substring "date". -/
def isDateCol (h : String) : Bool :=
  containsChars (strLower h).data "date".data

/-- Embedding of pd.to_datetime(column, dayfirst=True, errors="coerce") on
one cell: strings are parsed (unparseable ones coerce to NaT, i.e. null),
dates stay, missing stays missing. -/
def parseCellAsDate : Cell → Cell
  | Cell.str s =>
    match parseDateCell s with
    | some d => Cell.date d
    | none => Cell.null
  | Cell.date d => Cell.date d
  | Cell.null => Cell.null

/-- Embedding of the date-column cleaning loop, app.py lines 270 to 271:
every cell of a column whose header contains "date" is parsed, every other
column is left unchanged. -/
def cleanRow (hdr : List String) (row : List Cell) : List Cell :=
  (hdr.zip row).map (fun p => if isDateCol p.1 then parseCellAsDate p.2 else p.2)

/-- Embedding of df.fillna("Null").replace("NaT", "Null"), app.py lines 273
to 274: every missing cell and every literal "NaT" string becomes the
string "Null". -/
def fillCell : Cell → Cell
  | Cell.null => Cell.str "Null"
  | Cell.str s => if s = "NaT" then Cell.str "Null" else Cell.str s
  | Cell.date d => Cell.date d

/-- Column filter of app.py line 275: drop "Is Recurring" and "Late". -/
def keepCol (h : String) : Bool :=
  !(h == "Is Recurring" || h == "Late")

/-- Embedding of df.drop(columns=[...]): keeps only the columns whose
header passes keepCol, cellwise through a header-indexed zip. -/
def dropCols (t : Table) : Table :=
  ⟨t.header.filter keepCol,
   t.rows.map (fun row => ((t.header.zip row).filter (fun p => keepCol p.1)).map (fun p => p.2))⟩

/-- Embedding of the cleaning block, app.py lines 269 to 275: guarded by
"if not df_main.empty" (an empty frame is left untouched), then date
parsing, fillna/replace, and the column drop, in source order. -/
def cleanTable (t : Table) : Table :=
  if t.rows.isEmpty then t
  else dropCols ⟨t.header, t.rows.map (fun row => (cleanRow t.header row).map fillCell)⟩

/-- Rendering of one cell value to text as done by df_to_html and the PDF
export: a date prints as a date, null prints as the text "NaT" would never
survive cleaning, so null cells are shown via their string form. -/
def showCell : Cell → String
  | Cell.str s => s
  | Cell.date d => fmtISO d.year d.month d.day
  | Cell.null => "Null"

/-- The marker produced by df_to_html for a cell whose trimmed text equals
"Null", app.py lines 528 and 661. -/
def nullMarker : String := "<i>Null</i>"

/-- Embedding of the cell display rule of df_to_html: the trimmed text
"Null" renders as the grey italic marker, anything else verbatim. -/
def cellDisplay (s : String) : String :=
  if strTrim s = "Null" then nullMarker else s

/-! ### PDF export story (app.py lines 700 to 794) -/

/-- One flowable of the reportlab story, abstracted to its content. -/
inductive StoryElem where
  | title (s : String)
  | spacer
  | para (s : String)
  | image
  | table (data : List (List String))
deriving Repr, DecidableEq

/-- Text shown for an optional date cell in the PDF preview. -/
def optionIntCellStr : Option Int → String
  | some z => toString z
  | none => "Null"

/-- The cells of one preview row, in column order. -/
def taskRowCells (r : TaskRow) : List String :=
  [r.name, r.progress, optionIntCellStr r.startDate, optionIntCellStr r.dueDate]

/-- Column headers of the Tasks preview table. -/
def taskColumns : List String :=
  ["Task Name", "Progress", "Start date", "Due date"]

/-- Embedding of kpi_data, app.py lines 721 to 732: the header row
["Metric", "Count"] followed by the aggregate counts. -/
def kpiData (t : List TaskRow) (today : Int) (avg : Option ℚ) : List (List String) :=
  [["Metric", "Count"],
   ["Total Tasks", toString t.length],
   ["Completed", toString (completedCount t)],
   ["In Progress", toString (inProgressCount t)],
   ["Not Started", toString (notStartedCount t)],
   ["Overdue", toString (overdueCount t today)],
   ["Average Duration (days)", renderAvgDuration avg]]

/-- Embedding of the Export Report tab, app.py lines 704 to 794: for a
nonempty Tasks table the story holds the title, the generation timestamp,
the logo image, the KPI table, an optional installations table, and the
task preview capped at the first 15 rows; an empty table produces no
story. -/
def buildStory (t : List TaskRow) (today : Int) (now : String)
    (avg : Option ℚ) (install : List (List String)) : List StoryElem :=
  if t.isEmpty then []
  else
    [StoryElem.title "Ethekwini WS-7761 Smart Meter Project Report",
     StoryElem.spacer,
     StoryElem.para ("Generated on: " ++ now),
     StoryElem.spacer,
     StoryElem.image,
     StoryElem.spacer,
     StoryElem.table (kpiData t today avg),
     StoryElem.spacer]
    ++ (if install.isEmpty then []
        else [StoryElem.para "Installations Summary",
              StoryElem.table install, StoryElem.spacer])
    ++ [StoryElem.para "Task Summary",
        StoryElem.table (taskColumns :: (t.take 15).map taskRowCells),
        StoryElem.spacer,
        StoryElem.para "Ethekwini Municipality | Automated Project Report"]

/-! ### CSV export and re-reading (spec-modelled) -/

/-- Modelled from the spec: src/app.py contains no CSV export, only the PDF
path; the spec describes a CSV export that serializes the currently
filtered table verbatim (UTF-8, comma-delimited, one row per source row,
header row first).  needsQuote decides whether a cell must be quoted. -/
def needsQuote (s : List Char) : Bool :=
  s.any (fun c => c == ',' || c == '"' || c == '\n')

/-- Doubling of quote characters inside a quoted cell. -/
def escQ : List Char → List Char
  | [] => []
  | c :: cs => if c = '"' then '"' :: '"' :: escQ cs else c :: escQ cs

/-- Modelled from the spec: serialization of one CSV cell. -/
def writeCell (s : List Char) : List Char :=
  if needsQuote s then '"' :: (escQ s ++ ['"']) else s

/-- Joins chunks with a separator character. -/
def joinSep (sep : Char) : List (List Char) → List Char
  | [] => []
  | [x] => x
  | x :: y :: t => x ++ sep :: joinSep sep (y :: t)

/-- Modelled from the spec: one CSV record, comma-delimited. -/
def writeRow (r : List (List Char)) : List Char :=
  joinSep ',' (r.map writeCell)

/-- Modelled from the spec: the CSV document, one line per row. -/
def writeTable (t : List (List (List Char))) : List Char :=
  joinSep '\n' (t.map writeRow)

/-- Parsing of a quoted cell body after the opening quote: a doubled quote
is an escaped quote, a single quote closes the cell. -/
def parseQ : List Char → List Char × List Char
  | [] => ([], [])
  | c :: cs =>
    if c = '"' then
      match cs with
      | [] => ([], [])
      | c2 :: cs2 =>
        if c2 = '"' then ('"' :: (parseQ cs2).1, (parseQ cs2).2)
        else ([], c2 :: cs2)
    else (c :: (parseQ cs).1, (parseQ cs).2)

/-- Parsing of an unquoted cell: stops at a comma or newline. -/
def parseU : List Char → List Char × List Char
  | [] => ([], [])
  | c :: cs =>
    if c = ',' ∨ c = '\n' then ([], c :: cs)
    else (c :: (parseU cs).1, (parseU cs).2)

/-- Parsing of one cell: a leading quote selects the quoted form. -/
def parseCell : List Char → List Char × List Char
  | [] => ([], [])
  | c :: cs => if c = '"' then parseQ cs else parseU (c :: cs)

/-- Parsing of one record: cells separated by commas, with explicit fuel
bounding the number of cells. -/
def parseRowAux : Nat → List Char → List (List Char) × List Char
  | 0, l => ([], l)
  | fuel + 1, l =>
    match (parseCell l).2 with
    | ',' :: r2 => ((parseCell l).1 :: (parseRowAux fuel r2).1, (parseRowAux fuel r2).2)
    | other => ([(parseCell l).1], other)

/-- Parsing of one record with sufficient fuel. -/
def parseRow (l : List Char) : List (List Char) × List Char :=
  parseRowAux (l.length + 1) l

/-- Parsing of a document: records separated by newlines, with explicit
fuel bounding the number of records. -/
def parseTableAux : Nat → List Char → List (List (List Char))
  | 0, _ => []
  | fuel + 1, l =>
    if l.isEmpty then []
    else
      match (parseRow l).2 with
      | '\n' :: r2 => (parseRow l).1 :: parseTableAux fuel r2
      | _ => [(parseRow l).1]

/-- Parsing of a document with sufficient fuel. -/
def parseTable (l : List Char) : List (List (List Char)) :=
  parseTableAux (l.length + 1) l

/-- Modelled from the spec: CSV export of a table of string cells. -/
def csvWriteTable (t : List (List String)) : String :=
  String.mk (writeTable (t.map (fun r => r.map String.data)))

/-- Modelled from the spec: re-reading an exported CSV document. -/
def csvParseTable (s : String) : List (List String) :=
  (parseTable s.data).map (fun r => r.map String.mk)

/-! ### Concrete fixtures used by counterexamples and witnesses -/

/-- Membership test for the not-started label set claimed by the spec. -/
def claimNotStartedSet (s : String) : Bool :=
  decide (s = "not started") || decide (s = "to do") || decide (s = "pending") ||
  decide (s = "todo") || decide (s = "")

/-- Concrete two-row table: one status in the claimed extended not-started
set, one canonical status carrying a trailing space. -/
def c1Table : List TaskRow :=
  [⟨"t1", "todo", none, none⟩, ⟨"t2", "Completed ", none, none⟩]

/-- Concrete row that is simultaneously in progress and overdue. -/
def c2Row : TaskRow := ⟨"t", "In Progress", none, some 0⟩

/-- Canonical-status predicate: the lower-cased status is one of the three
canonical labels. -/
def canonicalStatus (r : TaskRow) : Prop :=
  strLower r.progress = "completed" ∨ strLower r.progress = "in progress" ∨
  strLower r.progress = "not started"

instance (r : TaskRow) : Decidable (canonicalStatus r) := by
  unfold canonicalStatus
  infer_instance

/-- Concrete all-canonical table used by the C5 witness. -/
def c5Table : List TaskRow :=
  [⟨"a", "Completed", none, none⟩, ⟨"b", "Not Started", none, none⟩]

/-- Concrete workbook with one sheet that fails to parse. -/
def c4Sheets : List (String × Option Table) := [("Tasks", none)]

/-- Concrete zero-row table carrying a "Late" header, exercising the
df_main.empty guard of the cleaning block. -/
def c10EmptyLate : Table := ⟨["Late"], []⟩

/-- Concrete one-row table with a missing cell and a droppable column. -/
def c10Table : Table :=
  ⟨["Task Name", "Late", "Due date"],
   [[Cell.str "fix meter", Cell.null, Cell.str "31/12/2020"]]⟩

/-- Concrete row with both dates present, five days apart. -/
def c7Row : TaskRow := ⟨"a", "In Progress", some 0, some 5⟩

/-- Concrete table mixing a full-date row and a missing-start row. -/
def c7Table : List TaskRow := [c7Row, ⟨"b", "Completed", none, some 3⟩]

/-- Concrete table in which no row has both dates. -/
def c7NullTable : List TaskRow := [⟨"b", "Completed", none, some 3⟩]

/-- Concrete one-row table used by the C8 witness. -/
def c8Table : List TaskRow := [⟨"a", "Completed", some 0, some 5⟩]

/-- Concrete header and row used by the C6 witness. -/
def c6Header : List String := ["Due date", "Progress"]

/-- Concrete cell row aligned with c6Header. -/
def c6Row : List Cell := [Cell.str "31/12/2020", Cell.str "In Progress"]

/-- Concrete filtered view with a comma, a quote and a newline in cells. -/
def c9Table : List (List String) :=
  [["Task Name", "Progress"],
   ["fix, meter", "In \"Progress\""],
   ["line1\nline2", "done"]]

/-! ### Helper lemmas for the boolean-series pipeline -/

theorem boolSum_eq_countP (l : List Bool) : boolSum l = l.countP id := by
  induction l with
  | nil => simp [boolSum]
  | cons b l ih =>
      cases b
      · simp [boolSum, List.countP_cons, ih]
      · simp [boolSum, List.countP_cons, ih]
        omega

theorem boolSum_map_countP {α : Type} (f : α → Bool) (l : List α) :
    boolSum (l.map f) = l.countP f := by
  rw [boolSum_eq_countP, List.countP_map]
  rfl

theorem zipWith_map_same {α β γ δ : Type} (f : β → γ → δ) (g : α → β) (h : α → γ)
    (l : List α) : List.zipWith f (l.map g) (l.map h) = l.map (fun x => f (g x) (h x)) := by
  induction l with
  | nil => rfl
  | cons a l ih => simp [List.zipWith, ih]

theorem completedCount_eq_filter (t : List TaskRow) :
    completedCount t
      = (t.filter (fun r => decide (strLower r.progress = "completed"))).length := by
  rw [completedCount, lowerEqSeries, progressSeries, List.map_map,
    boolSum_map_countP, List.countP_eq_length_filter]
  rfl

theorem inProgressCount_eq_filter (t : List TaskRow) :
    inProgressCount t
      = (t.filter (fun r => decide (strLower r.progress = "in progress"))).length := by
  rw [inProgressCount, lowerEqSeries, progressSeries, List.map_map,
    boolSum_map_countP, List.countP_eq_length_filter]
  rfl

theorem notStartedCount_eq_filter (t : List TaskRow) :
    notStartedCount t
      = (t.filter (fun r => decide (strLower r.progress = "not started"))).length := by
  rw [notStartedCount, lowerEqSeries, progressSeries, List.map_map,
    boolSum_map_countP, List.countP_eq_length_filter]
  rfl

theorem overdueCount_eq_countP (t : List TaskRow) (today : Int) :
    overdueCount t today = t.countP (fun r => isOverdue r today) := by
  rw [overdueCount, andNotSeries, ltTodaySeries, dueDateSeries, lowerEqSeries,
    progressSeries, List.map_map, List.map_map, zipWith_map_same, boolSum_map_countP]
  rfl

/-! ### Claim C1 -/

/-- C1 counterexample: on c1Table the code counts neither row.  The row
with status "todo" lies in the claimed not-started set yet is not counted
by notStartedCount, and the row with status "Completed " equals
"completed" after trim and lower-casing yet is not counted by
completedCount, so the counts are not trim-insensitive and not_started
does not cover the claimed set. -/
theorem c1_claim_counterexample :
    completedCount c1Table = 0 ∧
    (c1Table.countP (fun r => decide (strLower (strTrim r.progress) = "completed"))) = 1 ∧
    notStartedCount c1Table = 0 ∧
    (c1Table.countP (fun r => claimNotStartedSet (strLower (strTrim r.progress)))) = 1 := by
  decide

/-- C1 (amended): the status counts are defined by case-insensitive exact
matching without trimming: completed counts exactly the rows whose
lower-cased status equals "completed", in_progress exactly those equal to
"in progress", and not_started exactly those equal to "not started"; in
particular not_started never exceeds the count of the claimed label set,
of which it matches only the first element. -/
theorem c1_amended_counts (t : List TaskRow) :
    completedCount t
      = (t.filter (fun r => decide (strLower r.progress = "completed"))).length ∧
    inProgressCount t
      = (t.filter (fun r => decide (strLower r.progress = "in progress"))).length ∧
    notStartedCount t
      = (t.filter (fun r => decide (strLower r.progress = "not started"))).length ∧
    notStartedCount t ≤ t.countP (fun r => claimNotStartedSet (strLower r.progress)) := by
  refine ⟨completedCount_eq_filter t, inProgressCount_eq_filter t,
    notStartedCount_eq_filter t, ?_⟩
  rw [notStartedCount_eq_filter, ← List.countP_eq_length_filter]
  apply List.countP_mono_left
  intro r _ h
  rw [decide_eq_true_eq] at h
  simp [claimNotStartedSet, h]

/-- C1 amended witness: the amended count equations evaluated on c1Table. -/
theorem c1_amended_counts_app :
    completedCount c1Table
      = (c1Table.filter (fun r => decide (strLower r.progress = "completed"))).length ∧
    notStartedCount c1Table
      = (c1Table.filter (fun r => decide (strLower r.progress = "not started"))).length ∧
    notStartedCount c1Table
      ≤ c1Table.countP (fun r => claimNotStartedSet (strLower r.progress)) :=
  ⟨(c1_amended_counts c1Table).1, (c1_amended_counts c1Table).2.2.1,
    (c1_amended_counts c1Table).2.2.2⟩

/-! ### Claim C2 -/

/-- C2: the overdue count counts exactly the rows whose due date parses and
lies strictly before today and whose status is not "completed"
(case-insensitive); consequently no overdue row has status "completed",
and a row can be counted both in in_progress and in overdue. -/
theorem c2_overdue_spec (t : List TaskRow) (today : Int) :
    overdueCount t today = (t.filter (fun r => isOverdue r today)).length ∧
    (∀ r : TaskRow, isOverdue r today = true ↔
      ((∃ d, r.dueDate = some d ∧ d < today) ∧ strLower r.progress ≠ "completed")) ∧
    (∀ r ∈ t, isOverdue r today = true → strLower r.progress ≠ "completed") ∧
    (inProgressCount [c2Row] = 1 ∧ overdueCount [c2Row] 1 = 1) := by
  have hiff : ∀ r : TaskRow, isOverdue r today = true ↔
      ((∃ d, r.dueDate = some d ∧ d < today) ∧ strLower r.progress ≠ "completed") := by
    intro r
    cases hd : r.dueDate with
    | none => simp [isOverdue, hd]
    | some d => simp [isOverdue, hd]
  refine ⟨?_, hiff, ?_, by decide⟩
  · rw [overdueCount_eq_countP, List.countP_eq_length_filter]
  · intro r _ h
    exact ((hiff r).mp h).2

/-- C2 witness: the overdue characterization applied to the concrete row
c2Row with today = 1. -/
theorem c2_overdue_spec_app :
    overdueCount [c2Row] 1 = ([c2Row].filter (fun r => isOverdue r 1)).length ∧
    strLower c2Row.progress ≠ "completed" ∧
    (inProgressCount [c2Row] = 1 ∧ overdueCount [c2Row] 1 = 1) :=
  ⟨(c2_overdue_spec [c2Row] 1).1,
    (c2_overdue_spec [c2Row] 1).2.2.1 c2Row (by decide) (by decide),
    (c2_overdue_spec [c2Row] 1).2.2.2⟩

/-! ### Claim C3 -/

/-- C3: both gauge percentage functions are bounded between 0 and 100 for
any 0 ≤ value ≤ total, return exactly 0 when total = 0, and are total
functions (division is guarded, so no division-by-zero error is raised). -/
theorem c3_gauge_pct_bounded (value total : ℚ) (h0 : 0 ≤ value) (h1 : value ≤ total) :
    0 ≤ gaugePct value total ∧ gaugePct value total ≤ 100 ∧
    (total = 0 → gaugePct value total = 0) ∧
    0 ≤ contractorPct value total ∧ contractorPct value total ≤ 100 ∧
    (total = 0 → contractorPct value total = 0) ∧
    contractorPct value total = gaugePct value total := by
  have hc : contractorPct value total = gaugePct value total := by
    rw [contractorPct, gaugePct]
    by_cases ht : total > 0
    · rw [if_pos ⟨ne_of_gt ht, ht⟩, if_pos ht]
    · rw [if_neg (fun h => ht h.2), if_neg ht]
  by_cases ht : total > 0
  · have hpos : 0 ≤ value / total * 100 := by positivity
    have hle : value / total * 100 ≤ 100 := by
      have hdle : value / total ≤ 1 := (div_le_one ht).mpr h1
      calc value / total * 100 ≤ 1 * 100 :=
            mul_le_mul_of_nonneg_right hdle (by norm_num)
        _ = 100 := by norm_num
    have hg : gaugePct value total = value / total * 100 := if_pos ht
    refine ⟨?_, ?_, ?_, ?_, ?_, ?_, hc⟩
    · rw [hg]; exact hpos
    · rw [hg]; exact hle
    · intro h; rw [h] at ht; exact absurd ht (by norm_num)
    · rw [hc, hg]; exact hpos
    · rw [hc, hg]; exact hle
    · intro h; rw [h] at ht; exact absurd ht (by norm_num)
  · have hg : gaugePct value total = 0 := if_neg ht
    refine ⟨?_, ?_, ?_, ?_, ?_, ?_, hc⟩ <;> simp [hc, hg]

/-- C3 witness: gauge bounds at value = 3, total = 4. -/
theorem c3_gauge_pct_bounded_app :
    0 ≤ gaugePct 3 4 ∧ gaugePct 3 4 ≤ 100 ∧
    ((4 : ℚ) = 0 → gaugePct 3 4 = 0) ∧
    0 ≤ contractorPct 3 4 ∧ contractorPct 3 4 ≤ 100 ∧
    ((4 : ℚ) = 0 → contractorPct 3 4 = 0) ∧
    contractorPct 3 4 = gaugePct 3 4 :=
  c3_gauge_pct_bounded 3 4 (by norm_num) (by norm_num)

/-! ### Claim C4 -/

/-- C4 counterexample: an existing but unopenable workbook file makes
load_data raise (pd.ExcelFile stands outside the try block), instead of
returning the empty mapping the claim promises for any file that cannot be
opened. -/
theorem c4_claim_counterexample :
    load_data FileState.unopenable = Except.error "ExcelFile raised" := rfl

/-- C4 (amended): the loader returns the empty mapping when the file is
missing, and for an openable workbook it never raises: every sheet appears
in the result, a sheet whose parse failed being replaced by the empty
table.  An existing file that cannot be opened as a spreadsheet, however,
propagates the exception. -/
theorem c4_amended_loader :
    load_data FileState.absent = Except.ok [] ∧
    (∀ ss, load_data (FileState.workbook ss)
      = Except.ok (ss.map (fun p => (p.1, p.2.getD emptyTable)))) ∧
    (∀ ss (n : String), (n, (none : Option Table)) ∈ ss →
      ∃ m, load_data (FileState.workbook ss) = Except.ok m ∧ (n, emptyTable) ∈ m) := by
  refine ⟨rfl, fun ss => rfl, ?_⟩
  intro ss n hn
  refine ⟨_, rfl, ?_⟩
  exact List.mem_map.mpr ⟨(n, none), hn, rfl⟩

/-- C4 amended witness: the loader evaluated on the missing file and on a
concrete workbook whose single sheet fails to parse. -/
theorem c4_amended_loader_app :
    load_data FileState.absent = Except.ok [] ∧
    load_data (FileState.workbook c4Sheets)
      = Except.ok (c4Sheets.map (fun p => (p.1, p.2.getD emptyTable))) ∧
    ∃ m, load_data (FileState.workbook c4Sheets) = Except.ok m ∧ ("Tasks", emptyTable) ∈ m :=
  ⟨c4_amended_loader.1, c4_amended_loader.2.1 c4Sheets,
    c4_amended_loader.2.2 c4Sheets "Tasks" (by decide)⟩

/-! ### Claim C5 -/

theorem countP_three_partition {α : Type} (p q r : α → Bool) (l : List α)
    (hpq : ∀ x, ¬(p x = true ∧ q x = true))
    (hpr : ∀ x, ¬(p x = true ∧ r x = true))
    (hqr : ∀ x, ¬(q x = true ∧ r x = true)) :
    l.countP p + l.countP q + l.countP r ≤ l.length ∧
    ((∀ x ∈ l, p x = true ∨ q x = true ∨ r x = true) →
      l.countP p + l.countP q + l.countP r = l.length) := by
  induction l with
  | nil => simp
  | cons a l ih =>
      rcases ih with ⟨ihle, iheq⟩
      constructor
      · simp only [List.countP_cons, List.length_cons]
        have := hpq a; have := hpr a; have := hqr a
        by_cases hp : p a = true <;> by_cases hq : q a = true <;>
          by_cases hr : r a = true <;> simp_all <;> omega
      · intro hall
        have heq := iheq (fun x hx => hall x (List.mem_cons_of_mem a hx))
        have ha := hall a (List.mem_cons_self a l)
        simp only [List.countP_cons, List.length_cons]
        have := hpq a; have := hpr a; have := hqr a
        by_cases hp : p a = true <;> by_cases hq : q a = true <;>
          by_cases hr : r a = true <;> simp_all <;> omega

/-- C5: the three status counts are mutually disjoint, so their sum never
exceeds the number of rows, and the sum equals the number of rows as soon
as every status is one of the three canonical labels (case-insensitive). -/
theorem c5_status_partition (t : List TaskRow) :
    completedCount t + inProgressCount t + notStartedCount t ≤ t.length ∧
    ((∀ r ∈ t, canonicalStatus r) →
      completedCount t + inProgressCount t + notStartedCount t = t.length) := by
  have h := countP_three_partition
    (fun r : TaskRow => decide (strLower r.progress = "completed"))
    (fun r : TaskRow => decide (strLower r.progress = "in progress"))
    (fun r : TaskRow => decide (strLower r.progress = "not started")) t
    (by intro x; rintro ⟨h1, h2⟩
        rw [decide_eq_true_eq] at h1 h2
        rw [h1] at h2; exact absurd h2 (by decide))
    (by intro x; rintro ⟨h1, h2⟩
        rw [decide_eq_true_eq] at h1 h2
        rw [h1] at h2; exact absurd h2 (by decide))
    (by intro x; rintro ⟨h1, h2⟩
        rw [decide_eq_true_eq] at h1 h2
        rw [h1] at h2; exact absurd h2 (by decide))
  rw [completedCount_eq_filter, inProgressCount_eq_filter, notStartedCount_eq_filter,
    ← List.countP_eq_length_filter, ← List.countP_eq_length_filter,
    ← List.countP_eq_length_filter]
  refine ⟨h.1, ?_⟩
  intro hall
  refine h.2 ?_
  intro x hx
  rcases hall x hx with hc | hc | hc <;>
    simp [hc]

/-- C5 witness: the partition bound and the equality case evaluated on a
concrete table whose statuses are all canonical. -/
theorem c5_status_partition_app :
    completedCount c5Table + inProgressCount c5Table + notStartedCount c5Table
      = c5Table.length :=
  (c5_status_partition c5Table).2 (by decide)

/-! ### Digit printing and parsing lemmas -/

theorem digitChar_toNat (k : Nat) (h : k < 10) : (digitChar k).toNat = 48 + k := by
  interval_cases k <;> decide

theorem isDigitChar_digitChar (k : Nat) (h : k < 10) :
    isDigitChar (digitChar k) = true := by
  interval_cases k <;> decide

theorem digitVal_digitChar (k : Nat) (h : k < 10) : digitVal (digitChar k) = k := by
  interval_cases k <;> decide

theorem digitsRev_eq (n : Nat) (h : n ≠ 0) :
    digitsRev n = digitChar (n % 10) :: digitsRev (n / 10) := by
  rw [digitsRev]
  exact dif_neg h

theorem digitsRev_all_digits (n : Nat) : ∀ c ∈ digitsRev n, isDigitChar c = true := by
  induction n using Nat.strong_induction_on with
  | _ n ih =>
    by_cases h : n = 0
    · subst h
      intro c hc
      rw [digitsRev] at hc
      simp at hc
    · rw [digitsRev_eq n h]
      intro c hc
      rcases List.mem_cons.mp hc with hc | hc
      · subst hc
        exact isDigitChar_digitChar _ (Nat.mod_lt _ (by norm_num))
      · exact ih (n / 10) (Nat.div_lt_self (Nat.pos_of_ne_zero h) (by norm_num)) c hc

theorem foldl_digitsRev (n : Nat) : ∀ a : Nat,
    List.foldl (fun a c => a * 10 + digitVal c) a (digitsRev n).reverse
      = a * 10 ^ (digitsRev n).length + n := by
  induction n using Nat.strong_induction_on with
  | _ n ih =>
    intro a
    by_cases h : n = 0
    · subst h
      rw [digitsRev]
      simp
    · rw [digitsRev_eq n h]
      simp only [List.reverse_cons, List.foldl_append, List.foldl_cons,
        List.foldl_nil, List.length_cons]
      rw [ih (n / 10) (Nat.div_lt_self (Nat.pos_of_ne_zero h) (by norm_num)) a]
      rw [digitVal_digitChar _ (Nat.mod_lt _ (by norm_num))]
      rw [pow_succ]
      have hdm : n / 10 * 10 + n % 10 = n := by omega
      calc (a * 10 ^ (digitsRev (n / 10)).length + n / 10) * 10 + n % 10
          = a * (10 ^ (digitsRev (n / 10)).length * 10) + (n / 10 * 10 + n % 10) := by
            ring
        _ = a * (10 ^ (digitsRev (n / 10)).length * 10) + n := by rw [hdm]

theorem natToChars_all_digits (n : Nat) : ∀ c ∈ natToChars n, isDigitChar c = true := by
  intro c hc
  rw [natToChars] at hc
  by_cases h : n = 0
  · rw [if_pos h] at hc
    simp at hc
    subst hc
    decide
  · rw [if_neg h] at hc
    exact digitsRev_all_digits n c (List.mem_reverse.mp hc)

theorem natToChars_ne_nil (n : Nat) : natToChars n ≠ [] := by
  rw [natToChars]
  by_cases h : n = 0
  · rw [if_pos h]
    simp
  · rw [if_neg h, digitsRev_eq n h]
    simp

theorem foldl_natToChars (n : Nat) :
    List.foldl (fun a c => a * 10 + digitVal c) 0 (natToChars n) = n := by
  rw [natToChars]
  by_cases h : n = 0
  · rw [if_pos h, h]
    decide
  · rw [if_neg h]
    have := foldl_digitsRev n 0
    simpa using this

theorem padTo_all_digits (w n : Nat) : ∀ c ∈ padTo w n, isDigitChar c = true := by
  intro c hc
  rw [padTo] at hc
  rcases List.mem_append.mp hc with hc | hc
  · rw [List.eq_of_mem_replicate hc]
    decide
  · exact natToChars_all_digits n c hc

theorem padTo_ne_nil (w n : Nat) : padTo w n ≠ [] := by
  rw [padTo]
  intro hcontra
  rcases List.append_eq_nil.mp hcontra with ⟨-, h2⟩
  exact natToChars_ne_nil n h2

theorem foldl_zeros (k : Nat) :
    List.foldl (fun a c => a * 10 + digitVal c) 0 (List.replicate k '0') = 0 := by
  induction k with
  | zero => rfl
  | succ k ih =>
      rw [List.replicate_succ, List.foldl_cons]
      have hz : (0 * 10 + digitVal '0') = 0 := by decide
      rw [hz, ih]

theorem parseNatList_padTo (w n : Nat) : parseNatList (padTo w n) = some n := by
  have hne : (padTo w n).isEmpty = false := by
    cases hp : padTo w n with
    | nil => exact absurd hp (padTo_ne_nil w n)
    | cons a l => rfl
  have hall : (padTo w n).all isDigitChar = true := by
    rw [List.all_eq_true]
    intro c hc
    exact padTo_all_digits w n c hc
  rw [parseNatList, hne, hall]
  simp only [Bool.not_false, Bool.and_self, if_true]
  congr 1
  rw [padTo, List.foldl_append, foldl_zeros, foldl_natToChars]

theorem digit_ne_slash {c : Char} (h : isDigitChar c = true) : ¬(c = '/') := by
  intro hc
  subst hc
  exact absurd h (by decide)

theorem digit_ne_dash {c : Char} (h : isDigitChar c = true) : ¬(c = '-') := by
  intro hc
  subst hc
  exact absurd h (by decide)

/-! ### Splitting lemmas -/

theorem splitOnChar_of_not_mem (sep : Char) (l : List Char)
    (h : ∀ c ∈ l, ¬(c = sep)) : splitOnChar sep l = [l] := by
  induction l with
  | nil => rfl
  | cons c cs ih =>
      have hc : ¬(c = sep) := h c (List.mem_cons_self c cs)
      have ih2 := ih (fun x hx => h x (List.mem_cons_of_mem c hx))
      simp only [splitOnChar, if_neg hc, ih2]

theorem splitOnChar_append (sep : Char) (a rest : List Char)
    (h : ∀ c ∈ a, ¬(c = sep)) :
    splitOnChar sep (a ++ sep :: rest) = a :: splitOnChar sep rest := by
  induction a with
  | nil => simp [splitOnChar]
  | cons c cs ih =>
      have hc : ¬(c = sep) := h c (List.mem_cons_self c cs)
      have ih2 := ih (fun x hx => h x (List.mem_cons_of_mem c hx))
      simp only [List.cons_append, splitOnChar, if_neg hc]
      change (match splitOnChar sep (cs ++ sep :: rest) with
        | [] => [[c]]
        | h :: t => (c :: h) :: t) = _
      rw [ih2]

/-! ### Date format round trips -/

theorem parseDayFirst_fmtDMY (y m d : Nat) (h : validDate y m d = true) :
    parseDayFirstChars (fmtDMY d m y).data = some ⟨y, m, d⟩ := by
  have hsplit : splitOnChar '/' (fmtDMY d m y).data
      = [padTo 2 d, padTo 2 m, padTo 4 y] := by
    show splitOnChar '/' (padTo 2 d ++ '/' :: (padTo 2 m ++ '/' :: padTo 4 y)) = _
    rw [splitOnChar_append '/' _ _ (fun c hc => digit_ne_slash (padTo_all_digits 2 d c hc)),
      splitOnChar_append '/' _ _ (fun c hc => digit_ne_slash (padTo_all_digits 2 m c hc)),
      splitOnChar_of_not_mem '/' _ (fun c hc => digit_ne_slash (padTo_all_digits 4 y c hc))]
  simp only [parseDayFirstChars, hsplit, parseNatList_padTo, h, if_true]

theorem parseDateCell_fmtDMY (y m d : Nat) (h : validDate y m d = true) :
    parseDateCell (fmtDMY d m y) = some ⟨y, m, d⟩ := by
  simp only [parseDateCell, parseDayFirst_fmtDMY y m d h]

theorem fmtISO_chars (y m d : Nat) :
    ∀ c ∈ (fmtISO y m d).data, isDigitChar c = true ∨ c = '-' := by
  intro c hc
  have hc2 : c ∈ padTo 4 y ++ '-' :: (padTo 2 m ++ '-' :: padTo 2 d) := hc
  rcases List.mem_append.mp hc2 with h1 | h1
  · exact Or.inl (padTo_all_digits 4 y c h1)
  · rcases List.mem_cons.mp h1 with h2 | h2
    · exact Or.inr h2
    · rcases List.mem_append.mp h2 with h3 | h3
      · exact Or.inl (padTo_all_digits 2 m c h3)
      · rcases List.mem_cons.mp h3 with h4 | h4
        · exact Or.inr h4
        · exact Or.inl (padTo_all_digits 2 d c h4)

theorem parseDayFirst_fmtISO (y m d : Nat) :
    parseDayFirstChars (fmtISO y m d).data = none := by
  have hsplit : splitOnChar '/' (fmtISO y m d).data = [(fmtISO y m d).data] := by
    apply splitOnChar_of_not_mem
    intro c hc
    rcases fmtISO_chars y m d c hc with hd | hd
    · exact digit_ne_slash hd
    · subst hd
      decide
  simp only [parseDayFirstChars, hsplit]

theorem parseDateCell_fmtISO (y m d : Nat) (h : validDate y m d = true) :
    parseDateCell (fmtISO y m d) = some ⟨y, m, d⟩ := by
  have hsplit : splitOnChar '-' (fmtISO y m d).data
      = [padTo 4 y, padTo 2 m, padTo 2 d] := by
    show splitOnChar '-' (padTo 4 y ++ '-' :: (padTo 2 m ++ '-' :: padTo 2 d)) = _
    rw [splitOnChar_append '-' _ _ (fun c hc => digit_ne_dash (padTo_all_digits 4 y c hc)),
      splitOnChar_append '-' _ _ (fun c hc => digit_ne_dash (padTo_all_digits 2 m c hc)),
      splitOnChar_of_not_mem '-' _ (fun c hc => digit_ne_dash (padTo_all_digits 2 d c hc))]
  simp only [parseDateCell, parseDayFirst_fmtISO y m d, parseISOChars, hsplit,
    parseNatList_padTo, h, if_true]

/-! ### Claim C6 -/

/-- C6: in the cleaning step exactly the columns whose header contains the
substring "date" (case-insensitive) are parsed as dates, cellwise;
unparseable values coerce to null instead of raising; and a value written
DD/MM/YYYY parses to the same calendar date as its YYYY-MM-DD equivalent
under the day-first convention. -/
theorem c6_date_columns (hdr : List String) (row : List Cell) (j : Nat)
    (h1 : j < hdr.length) (h2 : j < row.length) :
    (cleanRow hdr row)[j]?
      = some (if isDateCol (hdr.get ⟨j, h1⟩) then parseCellAsDate (row.get ⟨j, h2⟩)
              else row.get ⟨j, h2⟩) ∧
    (∀ s, parseDateCell s = none → parseCellAsDate (Cell.str s) = Cell.null) ∧
    (∀ y m d, validDate y m d = true →
      parseDateCell (fmtDMY d m y) = some ⟨y, m, d⟩ ∧
      parseDateCell (fmtISO y m d) = some ⟨y, m, d⟩) := by
  refine ⟨?_, ?_, ?_⟩
  · have hj : j < (hdr.zip row).length := by
      rw [List.length_zip]
      omega
    simp only [cleanRow, List.getElem?_map, List.getElem?_eq_getElem hj,
      List.getElem_zip, Option.map_some]
    rfl
  · intro s hs
    simp only [parseCellAsDate, hs]
  · intro y m d h
    exact ⟨parseDateCell_fmtDMY y m d h, parseDateCell_fmtISO y m d h⟩

/-- C6 witness: the column rule at index 0 of a concrete header and row,
coercion of an unparseable string, and the concrete round trip between
31/12/2020 and 2020-12-31. -/
theorem c6_date_columns_app :
    (cleanRow c6Header c6Row)[0]?
      = some (if isDateCol (c6Header.get ⟨0, by decide⟩)
              then parseCellAsDate (c6Row.get ⟨0, by decide⟩)
              else c6Row.get ⟨0, by decide⟩) ∧
    parseCellAsDate (Cell.str "nonsense") = Cell.null ∧
    (parseDateCell (fmtDMY 31 12 2020) = some ⟨2020, 12, 31⟩ ∧
     parseDateCell (fmtISO 2020 12 31) = some ⟨2020, 12, 31⟩) :=
  ⟨(c6_date_columns c6Header c6Row 0 (by decide) (by decide)).1,
   (c6_date_columns c6Header c6Row 0 (by decide) (by decide)).2.1 "nonsense" (by decide),
   (c6_date_columns c6Header c6Row 0 (by decide) (by decide)).2.2 2020 12 31 (by decide)⟩

/-! ### Claim C7 -/

/-- C7: the per-row duration is due minus start in days when both dates are
present; the average ignores rows with a missing date (filtering them away
does not change it); when no row has both dates the average is missing
(the NaN case) and renders as "N/A"; otherwise it is the mean of the
defined durations. -/
theorem c7_avg_duration (t : List TaskRow) :
    avgDuration t
      = avgDuration (t.filter (fun r => r.startDate.isSome && r.dueDate.isSome)) ∧
    (∀ r : TaskRow, ∀ s d : Int, r.startDate = some s → r.dueDate = some d →
      durationDays r = some (d - s)) ∧
    (t.filterMap durationDays = [] →
      avgDuration t = none ∧ renderAvgDuration (avgDuration t) = "N/A") ∧
    (t.filterMap durationDays ≠ [] →
      avgDuration t = some (((t.filterMap durationDays).map (fun z => (z : ℚ))).sum
        / ((t.filterMap durationDays).length : ℚ))) := by
  have hfm : (t.filter (fun r => r.startDate.isSome && r.dueDate.isSome)).filterMap durationDays
      = t.filterMap durationDays := by
    induction t with
    | nil => rfl
    | cons a t ih =>
        cases hs : a.startDate <;> cases hd : a.dueDate <;>
          simp [List.filterMap_cons, List.filter_cons, durationDays, hs, hd, ih]
  refine ⟨?_, ?_, ?_, ?_⟩
  · rw [avgDuration, avgDuration, hfm]
  · intro r s d hs hd
    simp [durationDays, hs, hd]
  · intro hnil
    constructor
    · rw [avgDuration, hnil]
      rfl
    · rw [avgDuration, hnil]
      rfl
  · intro hnn
    have hne : (t.filterMap durationDays).isEmpty = false := by
      cases hp : t.filterMap durationDays with
      | nil => exact absurd hp hnn
      | cons a l => rfl
    rw [avgDuration]
    simp only [hne, Bool.false_eq_true, if_false]

/-- C7 witness: the duration of a concrete row, the filter invariance on a
concrete mixed table, and the N/A rendering on a table with no complete
date pair. -/
theorem c7_avg_duration_app :
    avgDuration c7Table
      = avgDuration (c7Table.filter (fun r => r.startDate.isSome && r.dueDate.isSome)) ∧
    durationDays c7Row = some 5 ∧
    (avgDuration c7NullTable = none ∧
     renderAvgDuration (avgDuration c7NullTable) = "N/A") :=
  ⟨(c7_avg_duration c7Table).1,
   (c7_avg_duration c7Table).2.1 c7Row 0 5 rfl rfl,
   (c7_avg_duration c7NullTable).2.2.1 (by decide)⟩

/-! ### Claim C8 -/

/-- C8: for every nonempty Tasks table the export story contains the title,
the generation timestamp, the KPI table (whose header row is exactly
Metric, Count and whose rows list the aggregate counts), and the task
preview table holding at most the first 15 rows in source order. -/
theorem c8_pdf_story (t : List TaskRow) (today : Int) (now : String)
    (avg : Option ℚ) (install : List (List String)) (h : t ≠ []) :
    StoryElem.title "Ethekwini WS-7761 Smart Meter Project Report"
      ∈ buildStory t today now avg install ∧
    StoryElem.para ("Generated on: " ++ now) ∈ buildStory t today now avg install ∧
    StoryElem.table (kpiData t today avg) ∈ buildStory t today now avg install ∧
    (kpiData t today avg).head? = some ["Metric", "Count"] ∧
    ["Total Tasks", toString t.length] ∈ kpiData t today avg ∧
    ["Completed", toString (completedCount t)] ∈ kpiData t today avg ∧
    ["In Progress", toString (inProgressCount t)] ∈ kpiData t today avg ∧
    ["Not Started", toString (notStartedCount t)] ∈ kpiData t today avg ∧
    ["Overdue", toString (overdueCount t today)] ∈ kpiData t today avg ∧
    StoryElem.table (taskColumns :: (t.take 15).map taskRowCells)
      ∈ buildStory t today now avg install ∧
    (t.take 15).length ≤ 15 ∧
    (∃ rest, t = t.take 15 ++ rest) := by
  have hne : t.isEmpty = false := by
    cases t with
    | nil => exact absurd rfl h
    | cons a l => rfl
  refine ⟨?_, ?_, ?_, rfl, ?_, ?_, ?_, ?_, ?_, ?_, ?_,
    ⟨t.drop 15, (List.take_append_drop 15 t).symm⟩⟩
  · simp [buildStory, hne]
  · simp [buildStory, hne]
  · simp [buildStory, hne]
  · simp [kpiData]
  · simp [kpiData]
  · simp [kpiData]
  · simp [kpiData]
  · simp [kpiData]
  · simp [buildStory, hne]
  · rw [List.length_take]
    exact min_le_left _ _

/-- C8 witness: the story facts evaluated on a concrete one-row table. -/
theorem c8_pdf_story_app :
    StoryElem.title "Ethekwini WS-7761 Smart Meter Project Report"
      ∈ buildStory c8Table 1 "01 January 2021, 10:00" none [] ∧
    (kpiData c8Table 1 none).head? = some ["Metric", "Count"] ∧
    StoryElem.table (taskColumns :: (c8Table.take 15).map taskRowCells)
      ∈ buildStory c8Table 1 "01 January 2021, 10:00" none [] ∧
    (c8Table.take 15).length ≤ 15 :=
  ⟨(c8_pdf_story c8Table 1 "01 January 2021, 10:00" none [] (by decide)).1,
   (c8_pdf_story c8Table 1 "01 January 2021, 10:00" none [] (by decide)).2.2.2.1,
   (c8_pdf_story c8Table 1 "01 January 2021, 10:00" none [] (by decide)).2.2.2.2.2.2.2.2.2.1,
   (c8_pdf_story c8Table 1 "01 January 2021, 10:00" none [] (by decide)).2.2.2.2.2.2.2.2.2.2.1⟩

/-! ### Claim C10 -/

theorem fillCell_ne_null (c : Cell) : fillCell c ≠ Cell.null := by
  cases c with
  | null => simp [fillCell]
  | str s =>
      rw [fillCell]
      split <;> simp
  | date d => simp [fillCell]

/-- C10 counterexample: the cleaning block is guarded by the df_main.empty
test, so a zero-row table carrying a "Late" header is consumed downstream
unchanged, with the "Late" column still present, contrary to the claim
that the column is removed from every consumed table. -/
theorem c10_claim_counterexample :
    cleanTable c10EmptyLate = c10EmptyLate ∧
    "Late" ∈ (cleanTable c10EmptyLate).header := by
  exact ⟨by decide, by decide⟩

/-- C10 (amended): for every table with at least one row, cleaning leaves
no null cell (every missing value becomes the string "Null", which the
renderers treat as the missing-value marker) and removes the columns
"Is Recurring" and "Late"; an empty table is left untouched by the
df_main.empty guard (it has no cells, but keeps its columns). -/
theorem c10_amended_clean (t : Table) (h : t.rows ≠ []) :
    (∀ row ∈ (cleanTable t).rows, ∀ c ∈ row, c ≠ Cell.null) ∧
    "Is Recurring" ∉ (cleanTable t).header ∧
    "Late" ∉ (cleanTable t).header ∧
    cellDisplay (showCell (Cell.str "Null")) = nullMarker ∧
    (∀ t2 : Table, t2.rows = [] → cleanTable t2 = t2) := by
  have hne : t.rows.isEmpty = false := by
    cases ht : t.rows with
    | nil => exact absurd ht h
    | cons a l => rfl
  have hclean : cleanTable t
      = dropCols ⟨t.header, t.rows.map (fun row => (cleanRow t.header row).map fillCell)⟩ := by
    rw [cleanTable]
    simp only [hne, Bool.false_eq_true, if_false]
  refine ⟨?_, ?_, ?_, by decide, ?_⟩
  · intro row hrow c hc
    rw [hclean] at hrow
    simp only [dropCols] at hrow
    obtain ⟨row0, hrow0, heq⟩ := List.mem_map.mp hrow
    subst heq
    obtain ⟨p, hp, hpc⟩ := List.mem_map.mp hc
    have hpz : p ∈ t.header.zip row0 := (List.mem_filter.mp hp).1
    have hp2 : p.2 ∈ row0 := (List.of_mem_zip hpz).2
    obtain ⟨orig, -, horig⟩ := List.mem_map.mp hrow0
    subst horig
    obtain ⟨c0, -, hc0⟩ := List.mem_map.mp hp2
    rw [← hpc, ← hc0]
    exact fillCell_ne_null c0
  · rw [hclean]
    intro hmem
    have := (List.mem_filter.mp hmem).2
    exact absurd this (by decide)
  · rw [hclean]
    intro hmem
    have := (List.mem_filter.mp hmem).2
    exact absurd this (by decide)
  · intro t2 h2
    have : t2.rows.isEmpty = true := by
      rw [h2]
      rfl
    rw [cleanTable]
    simp only [this, if_true]

/-- C10 amended witness: the cleaning facts evaluated on a concrete
one-row table with a missing cell and a "Late" column. -/
theorem c10_amended_clean_app :
    "Is Recurring" ∉ (cleanTable c10Table).header ∧
    "Late" ∉ (cleanTable c10Table).header ∧
    cellDisplay (showCell (Cell.str "Null")) = nullMarker :=
  ⟨(c10_amended_clean c10Table (by decide)).2.1,
   (c10_amended_clean c10Table (by decide)).2.2.1,
   (c10_amended_clean c10Table (by decide)).2.2.2.1⟩

/-! ### CSV round-trip lemmas -/

theorem head_ne_quote_of_sep {rest : List Char}
    (h : rest = [] ∨ rest.head? = some ',' ∨ rest.head? = some '\n') :
    rest.head? ≠ some '"' := by
  rcases h with h | h | h
  · subst h
    simp
  · rw [h]
    simp
  · rw [h]
    simp

theorem parseQ_escQ (rest : List Char) (hr : rest.head? ≠ some '"') :
    ∀ s : List Char, parseQ (escQ s ++ '"' :: rest) = (s, rest) := by
  intro s
  induction s with
  | nil =>
      cases rest with
      | nil => rfl
      | cons c2 cs2 =>
          have hc2 : ¬(c2 = '"') := by
            intro hh
            apply hr
            rw [hh]
            rfl
          simp [escQ, parseQ, hc2]
  | cons c cs ih =>
      by_cases h : c = '"'
      · subst h
        simp [escQ, parseQ, ih]
      · simp only [escQ, if_neg h, List.cons_append]
        rw [parseQ.eq_def]
        simp [h, ih]

theorem parseU_spec (rest : List Char)
    (hrest : rest = [] ∨ rest.head? = some ',' ∨ rest.head? = some '\n') :
    ∀ s : List Char, (∀ c ∈ s, ¬(c = ',') ∧ ¬(c = '\n')) →
      parseU (s ++ rest) = (s, rest) := by
  intro s
  induction s with
  | nil =>
      intro _
      rcases hrest with h | h | h
      · subst h
        rfl
      · cases rest with
        | nil => simp at h
        | cons r rs =>
            simp at h
            subst h
            simp [parseU]
      · cases rest with
        | nil => simp at h
        | cons r rs =>
            simp at h
            subst h
            simp [parseU]
  | cons c cs ih =>
      intro hs
      have hc := hs c (List.mem_cons_self c cs)
      have ih2 := ih (fun x hx => hs x (List.mem_cons_of_mem c hx))
      simp [parseU, hc.1, hc.2, ih2]

theorem parseCell_spec (s rest : List Char)
    (hrest : rest = [] ∨ rest.head? = some ',' ∨ rest.head? = some '\n') :
    parseCell (writeCell s ++ rest) = (s, rest) := by
  by_cases hq : needsQuote s = true
  · rw [writeCell, if_pos hq]
    have hsh : ('"' :: (escQ s ++ ['"'])) ++ rest = '"' :: (escQ s ++ '"' :: rest) := by
      simp
    rw [hsh]
    have : parseCell ('"' :: (escQ s ++ '"' :: rest)) = parseQ (escQ s ++ '"' :: rest) := by
      simp [parseCell]
    rw [this]
    exact parseQ_escQ rest (head_ne_quote_of_sep hrest) s
  · rw [writeCell, if_neg hq]
    rw [Bool.not_eq_true] at hq
    rw [needsQuote, List.any_eq_false] at hq
    have hchars : ∀ c ∈ s, ¬(c = ',') ∧ ¬(c = '\n') ∧ ¬(c = '"') := by
      intro c hcmem
      have h3 := hq c hcmem
      simp at h3
      exact ⟨h3.1.1, h3.2, h3.1.2⟩
    cases s with
    | nil =>
        rcases hrest with h | h | h
        · subst h
          rfl
        · cases rest with
          | nil => simp at h
          | cons r rs =>
              simp at h
              subst h
              simp [parseCell, parseU]
        · cases rest with
          | nil => simp at h
          | cons r rs =>
              simp at h
              subst h
              simp [parseCell, parseU]
    | cons c cs =>
        have hc := hchars c (List.mem_cons_self c cs)
        have hstep : parseCell ((c :: cs) ++ rest) = parseU ((c :: cs) ++ rest) := by
          simp [parseCell, hc.2.2]
        rw [hstep]
        exact parseU_spec rest hrest (c :: cs)
          (fun x hx => ⟨(hchars x hx).1, (hchars x hx).2.1⟩)

theorem writeCell_ne_nil (s : List Char) (h : s ≠ []) : writeCell s ≠ [] := by
  rw [writeCell]
  split
  · simp
  · exact h

theorem writeRow_singleton (x : List Char) : writeRow [x] = writeCell x := rfl

theorem writeRow_cons (x : List Char) (r : List (List Char)) (h : r ≠ []) :
    writeRow (x :: r) = writeCell x ++ ',' :: writeRow r := by
  cases r with
  | nil => exact absurd rfl h
  | cons y t => rfl

theorem writeRow_ne_nil (r : List (List Char)) (h1 : r ≠ []) (h2 : r ≠ [[]]) :
    writeRow r ≠ [] := by
  cases r with
  | nil => exact absurd rfl h1
  | cons x t =>
      cases t with
      | nil =>
          have hx : x ≠ [] := by
            intro hx
            subst hx
            exact h2 rfl
          rw [writeRow_singleton]
          exact writeCell_ne_nil x hx
      | cons y t2 =>
          rw [writeRow_cons x (y :: t2) (by simp)]
          simp

theorem writeRow_length (r : List (List Char)) : r.length ≤ (writeRow r).length + 1 := by
  induction r with
  | nil => simp
  | cons x t ih =>
      cases t with
      | nil => simp
      | cons y t2 =>
          rw [writeRow_cons x (y :: t2) (by simp)]
          simp only [List.length_cons, List.length_append] at ih ⊢
          omega

theorem writeTable_singleton (r : List (List Char)) : writeTable [r] = writeRow r := rfl

theorem writeTable_cons (r : List (List Char)) (t : List (List (List Char))) (h : t ≠ []) :
    writeTable (r :: t) = writeRow r ++ '\n' :: writeTable t := by
  cases t with
  | nil => exact absurd rfl h
  | cons r2 t2 => rfl

theorem writeTable_length (t : List (List (List Char))) :
    t.length ≤ (writeTable t).length + 1 := by
  induction t with
  | nil => simp
  | cons r t ih =>
      cases t with
      | nil => simp
      | cons r2 t2 =>
          rw [writeTable_cons r (r2 :: t2) (by simp)]
          simp only [List.length_cons, List.length_append] at ih ⊢
          omega

theorem parseRowAux_spec (rest : List Char)
    (hrest : rest = [] ∨ rest.head? = some '\n') :
    ∀ (r : List (List Char)) (fuel : Nat), r ≠ [] → r.length ≤ fuel →
      parseRowAux fuel (writeRow r ++ rest) = (r, rest) := by
  intro r
  induction r with
  | nil =>
      intro fuel h
      exact absurd rfl h
  | cons x t ih =>
      intro fuel _ hfuel
      cases fuel with
      | zero => simp at hfuel
      | succ f =>
          have hsep : rest = [] ∨ rest.head? = some ',' ∨ rest.head? = some '\n' := by
            rcases hrest with h | h
            · exact Or.inl h
            · exact Or.inr (Or.inr h)
          cases t with
          | nil =>
              rw [writeRow_singleton]
              simp only [parseRowAux]
              rw [parseCell_spec x rest hsep]
              rcases hrest with h | h
              · subst h
                rfl
              · cases rest with
                | nil => rfl
                | cons rc rs =>
                    simp at h
                    subst h
                    rfl
          | cons y t2 =>
              rw [writeRow_cons x (y :: t2) (by simp), List.append_assoc,
                List.cons_append]
              simp only [parseRowAux]
              rw [parseCell_spec x (',' :: (writeRow (y :: t2) ++ rest))
                (Or.inr (Or.inl rfl))]
              show (x :: (parseRowAux f (writeRow (y :: t2) ++ rest)).1,
                (parseRowAux f (writeRow (y :: t2) ++ rest)).2) = (x :: y :: t2, rest)
              simp only [List.length_cons] at hfuel
              rw [ih f (by simp) (by simp only [List.length_cons]; omega)]

theorem parseTableAux_spec :
    ∀ (t : List (List (List Char))) (fuel : Nat),
      (∀ r ∈ t, r ≠ []) → t.getLast? ≠ some [[]] → t.length ≤ fuel →
      parseTableAux fuel (writeTable t) = t := by
  intro t
  induction t with
  | nil =>
      intro fuel _ _ _
      cases fuel with
      | zero => rfl
      | succ f => rfl
  | cons r t ih =>
      intro fuel hne hlast hfuel
      cases fuel with
      | zero => simp at hfuel
      | succ f =>
          have hr : r ≠ [] := hne r (List.mem_cons_self r t)
          cases t with
          | nil =>
              have hr2 : r ≠ [[]] := by
                intro hcontra
                apply hlast
                rw [hcontra]
                rfl
              have hwnn : writeRow r ≠ [] := writeRow_ne_nil r hr hr2
              rw [writeTable_singleton]
              simp only [parseTableAux]
              have hie : (writeRow r).isEmpty = false := by
                cases hw : writeRow r with
                | nil => exact absurd hw hwnn
                | cons a l => rfl
              rw [hie]
              simp only [Bool.false_eq_true, if_false]
              have hrow : parseRow (writeRow r) = (r, []) := by
                rw [parseRow]
                conv_lhs => rw [← List.append_nil (writeRow r)]
                exact parseRowAux_spec [] (Or.inl rfl) r _ hr
                  (by simpa using writeRow_length r)
              rw [hrow]
          | cons r2 t2 =>
              rw [writeTable_cons r (r2 :: t2) (by simp)]
              simp only [parseTableAux]
              have hie : (writeRow r ++ '\n' :: writeTable (r2 :: t2)).isEmpty = false := by
                cases hw : writeRow r with
                | nil => rfl
                | cons a l => rfl
              rw [hie]
              simp only [Bool.false_eq_true, if_false]
              have hrow : parseRow (writeRow r ++ '\n' :: writeTable (r2 :: t2))
                  = (r, '\n' :: writeTable (r2 :: t2)) := by
                rw [parseRow]
                apply parseRowAux_spec ('\n' :: writeTable (r2 :: t2)) (Or.inr rfl) r _ hr
                have := writeRow_length r
                simp only [List.length_append, List.length_cons]
                omega
              rw [hrow]
              show r :: parseTableAux f (writeTable (r2 :: t2)) = r :: r2 :: t2
              simp only [List.length_cons] at hfuel
              rw [ih f (fun x hx => hne x (List.mem_cons_of_mem r hx))
                (by rw [List.getLast?_cons_cons] at hlast; exact hlast)
                (by simp only [List.length_cons]; omega)]

/-! ### Claim C9 -/

/-- C9 (spec-modelled): exporting a filtered table to CSV and re-reading it
yields the identical cells in the identical row order, for every table
whose rows are nonempty and whose last row is not the single empty cell
(the one shape a CSV file cannot represent). -/
theorem c9_csv_roundtrip (t : List (List String))
    (h1 : ∀ r ∈ t, r ≠ [])
    (h2 : t.getLast? ≠ some [""]) :
    csvParseTable (csvWriteTable t) = t := by
  rw [csvWriteTable, csvParseTable]
  show (parseTable (writeTable (t.map (fun r => r.map String.data)))).map
      (fun r => r.map String.mk) = t
  have hc1 : ∀ r ∈ t.map (fun r => r.map String.data), r ≠ [] := by
    intro r hr
    obtain ⟨r0, hr0, hrr⟩ := List.mem_map.mp hr
    subst hrr
    intro hnil
    rw [List.map_eq_nil_iff] at hnil
    exact h1 r0 hr0 hnil
  have hc2 : (t.map (fun r => r.map String.data)).getLast? ≠ some [[]] := by
    intro hcontra
    rw [List.getLast?_map] at hcontra
    cases hl : t.getLast? with
    | none =>
        rw [hl] at hcontra
        simp at hcontra
    | some r0 =>
        rw [hl] at hcontra
        simp only [Option.map_some', Option.some.injEq] at hcontra
        apply h2
        rw [hl]
        congr 1
        cases r0 with
        | nil => simp at hcontra
        | cons s0 r1 =>
            simp only [List.map_cons, List.cons.injEq] at hcontra
            obtain ⟨hs0, hr1⟩ := hcontra
            rw [List.map_eq_nil_iff] at hr1
            have hs : s0 = "" := by
              cases s0 with
              | mk d =>
                  simp only at hs0
                  rw [hs0]
            rw [hs, hr1]
  rw [parseTable, parseTableAux_spec (t.map (fun r => r.map String.data)) _ hc1 hc2
    (by simpa using writeTable_length (t.map (fun r => r.map String.data)))]
  rw [List.map_map]
  have hrid : ∀ l : List (List String),
      l.map ((fun r : List (List Char) => r.map String.mk)
        ∘ (fun r : List String => r.map String.data)) = l := by
    intro l
    induction l with
    | nil => rfl
    | cons r rs ihl =>
        simp only [List.map_cons, ihl, Function.comp_apply, List.map_map]
        congr 1
        induction r with
        | nil => rfl
        | cons s ss ihr => simp [ihr]
  exact hrid t

/-- C9 witness: the round trip evaluated on a concrete filtered view whose
cells contain a comma, an escaped quote and an embedded newline. -/
theorem c9_csv_roundtrip_app : csvParseTable (csvWriteTable c9Table) = c9Table :=
  c9_csv_roundtrip c9Table (by decide) (by decide)

end Ethekwini
